import Mathlib

/-!
Verification of the matching-and-labeling engine of the obsidian_flash
repository (incremental label-based jump navigation).

The repository ships the unit tests of the engine
(test/unit/hints/HintGenerator.test.ts, test/unit/flash/FlashMatchDetector.test.ts,
test/unit/flash/FlashController.test.ts) but not the engine sources themselves
(src/hints/HintGenerator.ts, src/flash/FlashMatchDetector.ts,
src/flash/FlashController.ts, src/keyboard/KeyboardMapper.ts).  The definitions
below are therefore modelled from the specification (spec.md §3, §4.1-§4.4),
and where the repository's own unit tests pin down a behaviour the spec leaves
open or contradicts, the tests are followed and the deviation is recorded in
the doc comment of the definition concerned.
-/

namespace ObsidianFlash

/-! ## LabelAllocator (spec §4.1, HintGenerator.generateHintLabels) -/

/-- Modelled from the spec: the configured label alphabet is an "ordered,
deduplicated character sequence (case-insensitive)" and labels are "always
lowercase in the canonical form" (§3, §4.1 step 4).  The missing source is
`src/hints/HintGenerator.ts`.  Case folding and deduplication of the
configured alphabet string. -/
def normalizeAlphabet (alphabet : List Char) : List Char :=
  (alphabet.map Char.toLower).dedup

/-- Modelled from the spec: §4.1 step 1, "compute `usable = alphabet minus
excluded`".  The exclusion set is already case-folded by the caller (§4.3). -/
def exclFiltered (alphabet excluded : List Char) : List Char :=
  (normalizeAlphabet alphabet).filter (fun c => decide (c ∉ excluded))

/-- Modelled from the spec: §4.1 step 1, "If `usable` is empty, fall back to
the full `alphabet` (never block labeling entirely because of exclusions)". -/
def usableLetters (alphabet excluded : List Char) : List Char :=
  if exclFiltered alphabet excluded = [] then normalizeAlphabet alphabet
  else exclFiltered alphabet excluded

/-- A one-character label string. -/
def singleStr (c : Char) : String := ⟨[c]⟩

/-- A two-character label string. -/
def pairStr (p c : Char) : String := ⟨[p, c]⟩

/-- Modelled from the spec: §4.1 step 3, "the number of prefixes needed is the
smallest `k` such that `(|usable| - k) + k * |usable| >= count`".  When no
`k ≤ n` satisfies the inequality (count above the scheme's capacity) every
letter is reserved as a prefix, so that "as many as computable" labels are
produced (§4.1 guarantees). -/
def minPrefixCount (n count : Nat) : Nat :=
  match (List.range (n + 1)).find? (fun k => decide (count ≤ (n - k) + k * n)) with
  | some k => k
  | none => n

/-- Modelled from the spec: §4.1 step 3, "reserved letters no longer appear as
standalone labels"; the remaining single letters, emitted first, in alphabet
order. -/
def hintSingles (usable : List Char) (k : Nat) : List String :=
  (usable.drop k).map singleStr

/-- Modelled from the spec: §4.1 step 3, "each reserved letter becomes a prefix
for a block of two-character labels formed by pairing it with every letter of
`usable`, in alphabet order", blocks in the prefix's alphabet order. -/
def hintPairs (usable : List Char) (k : Nat) : List String :=
  (usable.take k).flatMap (fun p => usable.map (fun c => pairStr p c))

/-- Modelled from the spec: `LabelAllocator.allocate` /
`HintGenerator.generateHintLabels` (§4.1).  Steps 1-3 of the algorithm;
"output length never exceeds `count`". -/
def generateHintLabels (alphabet : List Char) (count : Nat) (excluded : List Char) :
    List String :=
  if count ≤ (usableLetters alphabet excluded).length then
    ((usableLetters alphabet excluded).take count).map singleStr
  else
    (hintSingles (usableLetters alphabet excluded)
        (minPrefixCount (usableLetters alphabet excluded).length count) ++
      hintPairs (usableLetters alphabet excluded)
        (minPrefixCount (usableLetters alphabet excluded).length count)).take count

/-- The number of distinct labels the two-level scheme of §4.1 can attain over
a usable alphabet of `n` letters: with `k` reserved prefixes it yields
`(n - k) + k * n = n + k * (n - 1)` labels, maximal at `k = n`, i.e. `n * n`. -/
def hintCapacity (n : Nat) : Nat := n * n

lemma singleStr_injective : Function.Injective singleStr := by
  intro a b h
  simpa [singleStr, String.ext_iff] using h

lemma pairStr_inj {p c p' c' : Char} : pairStr p c = pairStr p' c' ↔ p = p' ∧ c = c' := by
  simp [pairStr, String.ext_iff]

lemma normalizeAlphabet_nodup (alphabet : List Char) :
    (normalizeAlphabet alphabet).Nodup :=
  List.nodup_dedup _

lemma usableLetters_nodup (alphabet excluded : List Char) :
    (usableLetters alphabet excluded).Nodup := by
  unfold usableLetters
  split
  · exact normalizeAlphabet_nodup alphabet
  · exact List.Nodup.filter _ (normalizeAlphabet_nodup alphabet)

lemma usableLetters_subset (alphabet excluded : List Char) :
    usableLetters alphabet excluded ⊆ normalizeAlphabet alphabet := by
  unfold usableLetters
  split
  · exact fun a ha => ha
  · intro a ha
    exact (List.mem_filter.mp ha).1

lemma usableLetters_ne_nil {alphabet : List Char} (h : alphabet ≠ [])
    (excluded : List Char) : usableLetters alphabet excluded ≠ [] := by
  unfold usableLetters
  have hnorm : normalizeAlphabet alphabet ≠ [] := by
    unfold normalizeAlphabet
    intro hc
    rcases List.exists_mem_of_ne_nil alphabet h with ⟨a, ha⟩
    have : Char.toLower a ∈ (alphabet.map Char.toLower).dedup := by
      rw [List.mem_dedup]
      exact List.mem_map_of_mem Char.toLower ha
    rw [hc] at this
    exact (List.not_mem_nil _) this
  split
  · exact hnorm
  · assumption

lemma usableLetters_nil (alphabet : List Char) :
    usableLetters alphabet [] = normalizeAlphabet alphabet := by
  have hfe : exclFiltered alphabet [] = normalizeAlphabet alphabet := by
    unfold exclFiltered
    simp
  unfold usableLetters
  rw [hfe]
  split <;> simp_all

lemma minPrefixCount_le (n count : Nat) : minPrefixCount n count ≤ n := by
  unfold minPrefixCount
  cases hf : (List.range (n + 1)).find? (fun k => decide (count ≤ (n - k) + k * n)) with
  | none => exact Nat.le_refl n
  | some k =>
    have hk := List.mem_of_find?_eq_some hf
    exact Nat.lt_succ_iff.mp (List.mem_range.mp hk)

lemma minPrefixCount_spec {n count : Nat} (h : count ≤ hintCapacity n) :
    count ≤ (n - minPrefixCount n count) + minPrefixCount n count * n := by
  unfold minPrefixCount
  cases hf : (List.range (n + 1)).find? (fun k => decide (count ≤ (n - k) + k * n)) with
  | none =>
    exfalso
    have hnone := List.find?_eq_none.mp hf n (List.mem_range.mpr (Nat.lt_succ_self n))
    apply hnone
    simp only [decide_eq_true_eq]
    have : (n - n) + n * n = n * n := by omega
    rw [this]
    exact h
  | some k =>
    have := List.find?_some hf
    simpa using this

lemma hintSingles_nodup (usable : List Char) (hu : usable.Nodup) (k : Nat) :
    (hintSingles usable k).Nodup :=
  List.Nodup.map singleStr_injective ((List.drop_sublist k usable).nodup hu)

lemma hintPairs_nodup (usable : List Char) (hu : usable.Nodup) (k : Nat) :
    (hintPairs usable k).Nodup := by
  unfold hintPairs
  rw [List.nodup_flatMap]
  constructor
  · intro p _
    exact List.Nodup.map (fun a b h => (pairStr_inj.mp h).2) hu
  · have htk : (usable.take k).Nodup := (List.take_sublist k usable).nodup hu
    refine htk.imp ?_
    intro a b hab s hsa hsb
    rcases List.mem_map.mp hsa with ⟨c, _, rfl⟩
    rcases List.mem_map.mp hsb with ⟨c', _, hc'⟩
    exact hab ((pairStr_inj.mp hc'.symm).1)

lemma hintSingles_pairs_disjoint (usable : List Char) (k : Nat) :
    (hintSingles usable k).Disjoint (hintPairs usable k) := by
  intro s hs hp
  rcases List.mem_map.mp hs with ⟨c, _, rfl⟩
  unfold hintPairs at hp
  rcases List.mem_flatMap.mp hp with ⟨p, _, hmem⟩
  rcases List.mem_map.mp hmem with ⟨c', _, he⟩
  have := congrArg (fun t => t.data.length) he
  simp [pairStr, singleStr] at this

lemma hintSingles_length (usable : List Char) (k : Nat) :
    (hintSingles usable k).length = usable.length - k := by
  unfold hintSingles
  rw [List.length_map, List.length_drop]

lemma hintPairs_length (usable : List Char) (k : Nat) :
    (hintPairs usable k).length = (usable.take k).length * usable.length := by
  unfold hintPairs
  rw [List.length_flatMap]
  have h1 : List.map (List.length ∘ fun p => usable.map (fun c => pairStr p c)) (usable.take k)
      = List.replicate (usable.take k).length usable.length := by
    rw [show (List.length ∘ fun p => usable.map (fun c => pairStr p c))
        = Function.const Char usable.length by funext p; simp [Function.const]]
    exact List.map_const _ _
  rw [h1, List.sum_replicate, smul_eq_mul]

lemma generateHintLabels_nodup (alphabet : List Char) (count : Nat) (excluded : List Char) :
    (generateHintLabels alphabet count excluded).Nodup := by
  unfold generateHintLabels
  split
  · exact List.Nodup.map singleStr_injective
      ((List.take_sublist _ _).nodup (usableLetters_nodup alphabet excluded))
  · apply (List.take_sublist _ _).nodup
    rw [List.nodup_append]
    exact ⟨hintSingles_nodup _ (usableLetters_nodup alphabet excluded) _,
      hintPairs_nodup _ (usableLetters_nodup alphabet excluded) _,
      hintSingles_pairs_disjoint _ _⟩

lemma mem_generateHintLabels_chars {alphabet excluded : List Char} {count : Nat} {s : String}
    (hs : s ∈ generateHintLabels alphabet count excluded) :
    ∀ ch ∈ s.data, ch ∈ usableLetters alphabet excluded := by
  intro ch hch
  unfold generateHintLabels at hs
  split at hs
  · rcases List.mem_map.mp hs with ⟨c, hc, rfl⟩
    simp only [singleStr, List.mem_singleton] at hch
    subst hch
    exact List.take_subset _ _ hc
  · have hs' := List.take_subset _ _ hs
    rcases List.mem_append.mp hs' with h1 | h2
    · unfold hintSingles at h1
      rcases List.mem_map.mp h1 with ⟨c, hc, rfl⟩
      simp only [singleStr, List.mem_singleton] at hch
      subst hch
      exact List.drop_subset _ _ hc
    · unfold hintPairs at h2
      rcases List.mem_flatMap.mp h2 with ⟨p, hp, hmem⟩
      rcases List.mem_map.mp hmem with ⟨c, hc, rfl⟩
      simp only [pairStr, List.mem_cons, List.mem_singleton, List.not_mem_nil, or_false] at hch
      rcases hch with rfl | rfl
      · exact List.take_subset _ _ hp
      · exact hc

lemma mem_generateHintLabels_len {alphabet excluded : List Char} {count : Nat} {s : String}
    (hs : s ∈ generateHintLabels alphabet count excluded) :
    s.data.length = 1 ∨ s.data.length = 2 := by
  unfold generateHintLabels at hs
  split at hs
  · rcases List.mem_map.mp hs with ⟨c, _, rfl⟩
    left; rfl
  · have hs' := List.take_subset _ _ hs
    rcases List.mem_append.mp hs' with h1 | h2
    · rcases List.mem_map.mp h1 with ⟨c, _, rfl⟩
      left; rfl
    · unfold hintPairs at h2
      rcases List.mem_flatMap.mp h2 with ⟨p, _, hmem⟩
      rcases List.mem_map.mp hmem with ⟨c, _, rfl⟩
      right; rfl

lemma mem_generateHintLabels_ne_empty {alphabet excluded : List Char} {count : Nat} {s : String}
    (hs : s ∈ generateHintLabels alphabet count excluded) : s ≠ "" := by
  intro he
  rcases mem_generateHintLabels_len hs with h | h <;> rw [he] at h <;> simp at h

/-- Claim C3: for every non-empty alphabet, every excluded set and every
`count` not exceeding the capacity of the two-level labeling scheme over the
usable alphabet (`n * n` distinct labels for `n` usable letters, see
`hintCapacity`), the allocator returns exactly `count` pairwise-distinct
labels whose characters are all drawn from the (case-folded) alphabet,
including for one- and two-letter alphabets. -/
theorem generateHintLabels_capacity (alphabet excluded : List Char) (count : Nat)
    (_ha : alphabet ≠ [])
    (hc : count ≤ hintCapacity (usableLetters alphabet excluded).length) :
    (generateHintLabels alphabet count excluded).length = count ∧
    (generateHintLabels alphabet count excluded).Nodup ∧
    ∀ s ∈ generateHintLabels alphabet count excluded, ∀ ch ∈ s.data,
      ch ∈ normalizeAlphabet alphabet := by
  refine ⟨?_, generateHintLabels_nodup alphabet count excluded,
    fun s hs ch hch => usableLetters_subset alphabet excluded
      (mem_generateHintLabels_chars hs ch hch)⟩
  unfold generateHintLabels
  split
  · rename_i hle
    rw [List.length_map, List.length_take]
    omega
  · rename_i hgt
    set n := (usableLetters alphabet excluded).length with hn
    set k := minPrefixCount n count with hk
    have hkn : k ≤ n := minPrefixCount_le n count
    have hcap : count ≤ (n - k) + k * n := minPrefixCount_spec hc
    rw [List.length_take, List.length_append, hintSingles_length, hintPairs_length,
      List.length_take]
    have : min k n = k := Nat.min_eq_left hkn
    rw [← hn, this]
    omega

lemma mem_hintPairs_iff {usable : List Char} {k : Nat} {p c : Char} :
    pairStr p c ∈ hintPairs usable k ↔ p ∈ usable.take k ∧ c ∈ usable := by
  unfold hintPairs
  constructor
  · intro h
    rcases List.mem_flatMap.mp h with ⟨p', hp', hmem⟩
    rcases List.mem_map.mp hmem with ⟨c', hc', he⟩
    obtain ⟨rfl, rfl⟩ := pairStr_inj.mp he
    exact ⟨hp', hc'⟩
  · intro ⟨hp, hc⟩
    exact List.mem_flatMap.mpr ⟨p, hp, List.mem_map.mpr ⟨c, hc, rfl⟩⟩

lemma singleStr_not_mem_hintPairs {usable : List Char} {k : Nat} {c : Char} :
    singleStr c ∉ hintPairs usable k := by
  intro h
  unfold hintPairs at h
  rcases List.mem_flatMap.mp h with ⟨p, _, hmem⟩
  rcases List.mem_map.mp hmem with ⟨c', _, he⟩
  have := congrArg (fun t => t.data.length) he
  simp [pairStr, singleStr] at this

lemma pairStr_not_mem_hintSingles {usable : List Char} {k : Nat} {p c : Char} :
    pairStr p c ∉ hintSingles usable k := by
  intro h
  rcases List.mem_map.mp h with ⟨c', _, he⟩
  have := congrArg (fun t => t.data.length) he
  simp [pairStr, singleStr] at this

/-- Claim C8: whenever the allocator emits two-character labels, no reserved
prefix letter occurs as a standalone single-character label of the same
output, all returned labels are pairwise distinct, and every single-character
label precedes every two-character label in the returned order. -/
theorem generateHintLabels_structure (alphabet excluded : List Char) (count : Nat) :
    (∃ ones twos, generateHintLabels alphabet count excluded = ones ++ twos ∧
        (∀ s ∈ ones, s.data.length = 1) ∧ (∀ s ∈ twos, s.data.length = 2)) ∧
    (generateHintLabels alphabet count excluded).Nodup ∧
    ∀ p c, pairStr p c ∈ generateHintLabels alphabet count excluded →
      singleStr p ∉ generateHintLabels alphabet count excluded := by
  refine ⟨?_, generateHintLabels_nodup alphabet count excluded, ?_⟩
  · unfold generateHintLabels
    split
    · refine ⟨((usableLetters alphabet excluded).take count).map singleStr, [], by simp, ?_, by simp⟩
      intro s hs
      rcases List.mem_map.mp hs with ⟨c, _, rfl⟩
      rfl
    · refine ⟨(hintSingles (usableLetters alphabet excluded)
          (minPrefixCount (usableLetters alphabet excluded).length count)).take count,
        (hintPairs (usableLetters alphabet excluded)
          (minPrefixCount (usableLetters alphabet excluded).length count)).take
          (count - (hintSingles (usableLetters alphabet excluded)
            (minPrefixCount (usableLetters alphabet excluded).length count)).length),
        List.take_append_eq_append_take, ?_, ?_⟩
      · intro s hs
        rcases List.mem_map.mp (List.take_subset _ _ hs) with ⟨c, _, rfl⟩
        rfl
      · intro s hs
        have hs' := List.take_subset _ _ hs
        unfold hintPairs at hs'
        rcases List.mem_flatMap.mp hs' with ⟨p, _, hmem⟩
        rcases List.mem_map.mp hmem with ⟨c, _, rfl⟩
        rfl
  · intro p c hpair hsingle
    unfold generateHintLabels at hpair hsingle
    split at hpair
    · rcases List.mem_map.mp hpair with ⟨c', _, he⟩
      have := congrArg (fun t => t.data.length) he
      simp [pairStr, singleStr] at this
    · rename_i hgt
      split at hsingle
      · omega
      · have hpair' := List.take_subset _ _ hpair
        have hsingle' := List.take_subset _ _ hsingle
        rcases List.mem_append.mp hpair' with h1 | h2
        · exact pairStr_not_mem_hintSingles h1
        rcases List.mem_append.mp hsingle' with h3 | h4
        · have hp : p ∈ (usableLetters alphabet excluded).take
              (minPrefixCount (usableLetters alphabet excluded).length count) :=
            (mem_hintPairs_iff.mp h2).1
          rcases List.mem_map.mp h3 with ⟨c', hc', he⟩
          have hpc : p = c' := by
            have := congrArg String.data he
            simpa [singleStr] using this.symm
          subst hpc
          have hnd := usableLetters_nodup alphabet excluded
          rw [← List.take_append_drop
            (minPrefixCount (usableLetters alphabet excluded).length count)
            (usableLetters alphabet excluded), List.nodup_append] at hnd
          exact hnd.2.2 hp hc'
        · exact singleStr_not_mem_hintPairs h4

/-! ## MatchDetector (spec §4.3, FlashMatchDetector.findMatches) -/

/-- Modelled from the spec: §4.3, "Case folding is applied to both document
text and query when `caseSensitive` is false; otherwise exact byte/character
comparison is used". -/
def foldCase (caseSensitive : Bool) (l : List Char) : List Char :=
  if caseSensitive then l else l.map Char.toLower

/-- Modelled from the spec: §4.3, "scanning proceeds left to right,
non-overlapping, earliest-start-first" with guaranteed forward progress
("advance the scan cursor past the matched region").  Fuel-based recursion:
the fuel passed by `scanFrom` always exceeds the number of scan steps.
The missing source is `src/flash/FlashMatchDetector.ts`. -/
def scanFromAux : Nat → List Char → List Char → Nat → List Nat
  | 0, _, _, _ => []
  | fuel + 1, text, query, i =>
    if query.length = 0 then []
    else if i + query.length ≤ text.length then
      if (text.drop i).take query.length = query then
        i :: scanFromAux fuel text query (i + query.length)
      else scanFromAux fuel text query (i + 1)
    else []

/-- Start positions of the left-to-right non-overlapping literal occurrences
of `query` in `text`. -/
def scanFrom (text query : List Char) : List Nat :=
  scanFromAux (text.length + 1) text query 0

/-- Modelled from the spec: §4.3, a match is kept iff its start offset lies in
the half-open interval `[from, to)` of some visible range. -/
def inSomeRange (ranges : List (Nat × Nat)) (p : Nat) : Bool :=
  ranges.any (fun r => decide (r.1 ≤ p) && decide (p < r.2))

/-- Scan positions of the (case-folded) query in the (case-folded) text. -/
def scanPositions (caseSensitive : Bool) (text query : List Char) : List Nat :=
  scanFrom (foldCase caseSensitive text) (foldCase caseSensitive query)

/-- Modelled from the spec: §4.3, "occurrences are located only within the
union of `visibleRanges` - a candidate whose start offset is outside every
range is excluded". -/
def locatedPositions (caseSensitive : Bool) (text : List Char)
    (ranges : List (Nat × Nat)) (query : List Char) : List Nat :=
  (scanPositions caseSensitive text query).filter (fun p => inSomeRange ranges p)

/-- Modelled from the spec: §4.3, "for each match, compute `nextChar` as the
character immediately following the match end, or none at document end;
collect the set of all such `nextChar` values (case-folded) across the full
match set as the exclusion set passed to LabelAllocator". -/
def nextCharsOf (text : List Char) (qlen : Nat) (positions : List Nat) : List Char :=
  (positions.filterMap (fun i => (text.drop (i + qlen)).head?)).map Char.toLower

/-- One located occurrence (spec §3, `Match`; the field names follow the
repository's `FlashMatch` type as used by its unit tests). -/
structure FlashMatch where
  index : Nat
  matchLength : Nat
  linkText : List Char
  letter : String
  nextChar : Option Char
deriving DecidableEq

/-- Modelled from the spec: `MatchDetector.findMatches` (§4.3).  Locates the
non-overlapping occurrences of `query` inside the visible ranges, computes the
next-character exclusion set, allocates labels and assembles the match
records.  Deviation from the spec's words on label exhaustion: the spec says
trailing unlabeled matches remain in the result with an empty label, but the
repository's own unit test (FlashMatchDetector.test.ts, "should not return
matches beyond available labels") asserts that matches beyond the available
labels are not returned and that every returned label is non-empty; the test
is followed, so the positions are zipped with the allocated labels and the
zip truncates to the labelled prefix. -/
def findMatches (alphabet : List Char) (caseSensitive : Bool) (text : List Char)
    (ranges : List (Nat × Nat)) (query : List Char) : List FlashMatch :=
  ((locatedPositions caseSensitive text ranges query).zip
      (generateHintLabels alphabet
        (locatedPositions caseSensitive text ranges query).length
        (nextCharsOf text query.length
          (locatedPositions caseSensitive text ranges query)))).map
    (fun pl =>
      { index := pl.1
        matchLength := query.length
        linkText := (text.drop pl.1).take query.length
        letter := pl.2
        nextChar := (text.drop (pl.1 + query.length)).head? })

lemma scanFromAux_sound {fuel : Nat} {text query : List Char} {i p : Nat}
    (h : p ∈ scanFromAux fuel text query i) :
    (text.drop p).take query.length = query ∧ p + query.length ≤ text.length ∧ i ≤ p := by
  induction fuel generalizing i with
  | zero => simp [scanFromAux] at h
  | succ fuel ih =>
    unfold scanFromAux at h
    split at h
    · simp at h
    split at h
    · split at h
      · rcases List.mem_cons.mp h with rfl | hmem
        · exact ⟨by assumption, by assumption, Nat.le_refl p⟩
        · obtain ⟨h1, h2, h3⟩ := ih hmem
          exact ⟨h1, h2, by omega⟩
      · obtain ⟨h1, h2, h3⟩ := ih h
        exact ⟨h1, h2, by omega⟩
    · simp at h

lemma scanPositions_sound {caseSensitive : Bool} {text query : List Char} {p : Nat}
    (h : p ∈ scanPositions caseSensitive text query) :
    ((foldCase caseSensitive text).drop p).take query.length = foldCase caseSensitive query := by
  have hlen : (foldCase caseSensitive query).length = query.length := by
    unfold foldCase
    split
    · rfl
    · exact List.length_map _ _
  have := (scanFromAux_sound h).1
  rw [hlen] at this
  exact this

lemma mem_locatedPositions {caseSensitive : Bool} {text query : List Char}
    {ranges : List (Nat × Nat)} {p : Nat} :
    p ∈ locatedPositions caseSensitive text ranges query ↔
      p ∈ scanPositions caseSensitive text query ∧ inSomeRange ranges p = true := by
  unfold locatedPositions
  exact List.mem_filter

lemma mem_findMatches {alphabet : List Char} {caseSensitive : Bool} {text : List Char}
    {ranges : List (Nat × Nat)} {query : List Char} {m : FlashMatch}
    (h : m ∈ findMatches alphabet caseSensitive text ranges query) :
    m.index ∈ locatedPositions caseSensitive text ranges query ∧
    m.letter ∈ generateHintLabels alphabet
      (locatedPositions caseSensitive text ranges query).length
      (nextCharsOf text query.length
        (locatedPositions caseSensitive text ranges query)) := by
  unfold findMatches at h
  rcases List.mem_map.mp h with ⟨pl, hpl, rfl⟩
  have := List.of_mem_zip hpl
  exact this

lemma scanFromAux_empty_query {fuel : Nat} {text : List Char} {i : Nat} :
    scanFromAux fuel text [] i = [] := by
  cases fuel <;> simp [scanFromAux]

/-- Claim C6: every match returned by `findMatches` starts inside the
half-open interval `[from, to)` of some supplied visible range (so a start at
or beyond a range's upper bound, or outside every range, is excluded), and
conversely every scan candidate whose start offset lies in such an interval -
in particular one starting exactly at a range's lower bound - survives the
visible-range filter. -/
theorem findMatches_within_visible_ranges (alphabet : List Char) (caseSensitive : Bool)
    (text : List Char) (ranges : List (Nat × Nat)) (query : List Char) :
    (∀ m ∈ findMatches alphabet caseSensitive text ranges query,
        ∃ r ∈ ranges, r.1 ≤ m.index ∧ m.index < r.2) ∧
    (∀ p ∈ scanPositions caseSensitive text query,
        (∃ r ∈ ranges, r.1 ≤ p ∧ p < r.2) →
          p ∈ locatedPositions caseSensitive text ranges query) := by
  constructor
  · intro m hm
    have h1 := (mem_findMatches hm).1
    have h2 := (mem_locatedPositions.mp h1).2
    unfold inSomeRange at h2
    rcases List.any_eq_true.mp h2 with ⟨r, hr, hrp⟩
    refine ⟨r, hr, ?_⟩
    simpa using hrp
  · intro p hp hex
    apply mem_locatedPositions.mpr
    refine ⟨hp, ?_⟩
    unfold inSomeRange
    rcases hex with ⟨r, hr, h1, h2⟩
    exact List.any_eq_true.mpr ⟨r, hr, by simp [h1, h2]⟩

/-- Claim C7: `findMatches` is a total function of its inputs (no input makes
it fail), the empty query yields the empty match list, and the query is
matched literally: every returned match sits at a position where the
case-folded document text contains the case-folded query character for
character, so regex metacharacters in the query have no special meaning. -/
theorem findMatches_empty_and_literal (alphabet : List Char) (caseSensitive : Bool)
    (text : List Char) (ranges : List (Nat × Nat)) :
    findMatches alphabet caseSensitive text ranges [] = [] ∧
    ∀ query : List Char, ∀ m ∈ findMatches alphabet caseSensitive text ranges query,
      ((foldCase caseSensitive text).drop m.index).take query.length =
        foldCase caseSensitive query := by
  constructor
  · have h0 : scanPositions caseSensitive text [] = [] := by
      unfold scanPositions scanFrom
      have hfc : foldCase caseSensitive [] = ([] : List Char) := by
        unfold foldCase
        split <;> rfl
      rw [hfc, scanFromAux_empty_query]
    unfold findMatches locatedPositions
    rw [h0]
    rfl
  · intro query m hm
    exact scanPositions_sound (mem_locatedPositions.mp (mem_findMatches hm).1).1

lemma map_fst_zip_eq_take {α β : Type} (l₁ : List α) (l₂ : List β) :
    (l₁.zip l₂).map Prod.fst = l₁.take l₂.length := by
  induction l₁ generalizing l₂ with
  | nil => simp
  | cons a l₁ ih =>
    cases l₂ with
    | nil => simp
    | cons b l₂ => simp [ih]

/-- Claim C1 (amended): on label exhaustion `findMatches` keeps only the
labelled prefix of the located matches - the returned start indices are the
first `|labels|` located positions, and every returned match carries a
non-empty label; trailing unlabeled matches are dropped rather than returned
with an empty label. -/
theorem findMatches_truncates_to_labels (alphabet : List Char) (caseSensitive : Bool)
    (text : List Char) (ranges : List (Nat × Nat)) (query : List Char) :
    (findMatches alphabet caseSensitive text ranges query).map FlashMatch.index =
      (locatedPositions caseSensitive text ranges query).take
        (generateHintLabels alphabet
          (locatedPositions caseSensitive text ranges query).length
          (nextCharsOf text query.length
            (locatedPositions caseSensitive text ranges query))).length ∧
    ∀ m ∈ findMatches alphabet caseSensitive text ranges query, m.letter ≠ "" := by
  constructor
  · unfold findMatches
    rw [List.map_map]
    exact map_fst_zip_eq_take _ _
  · intro m hm
    exact mem_generateHintLabels_ne_empty (mem_findMatches hm).2

/-- Claim C1 (counterexample): with the one-letter alphabet `"a"` the document
`"a a a a a a a a a a"` has ten located occurrences of the query `"a"`, yet
`findMatches` returns a single match (the labelled one) instead of all ten
with trailing empty labels, and its label is non-empty. -/
theorem findMatches_label_exhaustion_cex :
    (locatedPositions false "a a a a a a a a a a".data [(0, 19)] "a".data).length = 10 ∧
    (findMatches "a".data false "a a a a a a a a a a".data [(0, 19)] "a".data).length = 1 := by
  decide

/-- Claim C2 (counterexample): in the document `"aaab"`, the returned start
indices for the extended query `"aab" = "aa" + 'b'` are not a subset of the
returned start indices for `"aa"`: the non-overlapping left-to-right scan
returns `"aa"` only at offset 0 (the occurrence at offset 1 overlaps it and
is skipped), while `"aab"` matches at offset 1. -/
theorem narrowing_subset_cex :
    ¬ ∀ i ∈ (findMatches "sadfjklewcmpgh".data false "aaab".data [(0, 4)]
          ("aa".data ++ ['b'])).map FlashMatch.index,
        i ∈ (findMatches "sadfjklewcmpgh".data false "aaab".data [(0, 4)]
          "aa".data).map FlashMatch.index := by
  decide

/-- Claim C2 (amended): every start index returned for the extended query
`q ++ [c]` is a position where `q` itself occurs literally (case-folded)
inside a visible range - i.e. the extended matches are a subset of the match
positions of `q`, though not necessarily of the start indices `findMatches`
returns for `q`, because the non-overlapping scan and label truncation may
omit some occurrences of `q`. -/
theorem narrowing_occurrence_subset (alphabet : List Char) (caseSensitive : Bool)
    (text : List Char) (ranges : List (Nat × Nat)) (q : List Char) (c : Char)
    (_hq : q ≠ []) :
    ∀ m ∈ findMatches alphabet caseSensitive text ranges (q ++ [c]),
      ((foldCase caseSensitive text).drop m.index).take q.length =
          foldCase caseSensitive q ∧
      inSomeRange ranges m.index = true := by
  intro m hm
  have h2 := mem_locatedPositions.mp (mem_findMatches hm).1
  refine ⟨?_, h2.2⟩
  have hs := scanPositions_sound h2.1
  have happ : foldCase caseSensitive (q ++ [c]) =
      foldCase caseSensitive q ++ foldCase caseSensitive [c] := by
    unfold foldCase
    split
    · rfl
    · exact List.map_append _ _ _
  have hlen : (foldCase caseSensitive q).length = q.length := by
    unfold foldCase
    split
    · rfl
    · exact List.length_map _ _
  have hmin : q.length ⊓ (q ++ [c]).length = q.length := by
    rw [List.length_append]
    exact Nat.min_eq_left (by omega)
  calc ((foldCase caseSensitive text).drop m.index).take q.length
      = (((foldCase caseSensitive text).drop m.index).take (q ++ [c]).length).take q.length := by
        rw [List.take_take, hmin]
    _ = (foldCase caseSensitive q ++ foldCase caseSensitive [c]).take q.length := by
        rw [hs, happ]
    _ = foldCase caseSensitive q := by
        rw [← hlen, List.take_left]

/-- Claim C5: labels never contain a character that immediately follows a
match (compared case-folded): whenever excluding the collected next
characters leaves the usable alphabet non-empty, no character of any returned
label belongs to the exclusion set; and when the exclusion set would empty
the usable alphabet, allocation falls back to the full unrestricted alphabet
(the allocation equals the exclusion-free allocation) instead of failing. -/
theorem labels_avoid_next_chars (alphabet : List Char) (caseSensitive : Bool)
    (text : List Char) (ranges : List (Nat × Nat)) (query : List Char) :
    (exclFiltered alphabet
        (nextCharsOf text query.length
          (locatedPositions caseSensitive text ranges query)) ≠ [] →
      ∀ m ∈ findMatches alphabet caseSensitive text ranges query,
        ∀ ch ∈ m.letter.data,
          ch ∉ nextCharsOf text query.length
            (locatedPositions caseSensitive text ranges query)) ∧
    (∀ excluded : List Char, ∀ count : Nat, exclFiltered alphabet excluded = [] →
      generateHintLabels alphabet count excluded = generateHintLabels alphabet count []) := by
  constructor
  · intro hne m hm ch hch
    have hmem := mem_generateHintLabels_chars (mem_findMatches hm).2 ch hch
    unfold usableLetters at hmem
    rw [if_neg hne] at hmem
    have := List.mem_filter.mp hmem
    simpa using this.2
  · intro excluded count hemp
    have h1 : usableLetters alphabet excluded = normalizeAlphabet alphabet := by
      unfold usableLetters
      rw [if_pos hemp]
    unfold generateHintLabels
    rw [h1, usableLetters_nil alphabet]

/-! ## SearchController (spec §4.4, FlashController) -/

/-- Configuration and document snapshot seen by the controller (spec §6:
alphabet, case flag, `minCharsBeforeLabels`; document text and visible
ranges from `getVisibleText`). -/
structure FlashEnv where
  alphabet : List Char
  caseSensitive : Bool
  minChars : Nat
  text : List Char
  ranges : List (Nat × Nat)
deriving DecidableEq

/-- Modelled from the spec: `SearchState` (§3) with the session's query,
current matches and active flag, plus the pending first letter of a
two-character label selection (§4.4 label narrowing) and the last cursor
command issued to the host editor (`none` while no jump was committed),
which makes cursor movement observable.  The missing source is
`src/flash/FlashController.ts`. -/
structure SearchState where
  query : List Char
  currentMatches : List FlashMatch
  pending : Option Char
  active : Bool
  cursor : Option Nat
deriving DecidableEq

/-- Modelled from the spec: §4.4, keystrokes seen by the controller after
keyboard normalization - printable characters, the cancel key, the
delete-last key and the modifier-only named keys of the repository's
`MODIFIER_KEYS` set. -/
inductive FlashKey where
  | char (c : Char)
  | escape
  | backspace
  | shift
  | control
  | alt
  | meta
  | capsLock
  | tab
  | enter
deriving DecidableEq

/-- Modelled from the spec: §4.4, the input events of an active session -
keystrokes and pointer clicks outside the search area. -/
inductive FlashEvent where
  | key (k : FlashKey)
  | clickOutside
deriving DecidableEq

/-- The freshly activated session (spec §4.4, `Inactive → Active`): empty
query, no matches, no pending label, no cursor command issued. -/
def activatedState : SearchState :=
  { query := [], currentMatches := [], pending := none, active := true, cursor := none }

/-- Modelled from the spec: §4.4 cancellation - clear `query`/`matches`,
leave `Active`, issue no cursor movement. -/
def cancelState (s : SearchState) : SearchState :=
  { query := [], currentMatches := [], pending := none, active := false, cursor := s.cursor }

/-- Modelled from the spec: §4.4 jump commit - issue the cursor move once and
clear `query`/`matches` unconditionally before returning control. -/
def jumpTo (_s : SearchState) (i : Nat) : SearchState :=
  { query := [], currentMatches := [], pending := none, active := false, cursor := some i }

/-- Modelled from the spec: §4.4, recompute of `matches` after a query
mutation, "gated by the minimum-character threshold (below threshold,
`matches` is forced empty to avoid premature labeling)". -/
def recompute (env : FlashEnv) (q : List Char) : List FlashMatch :=
  if env.minChars ≤ q.length then
    findMatches env.alphabet env.caseSensitive env.text env.ranges q
  else []

/-- Modelled from the spec: §4.4, whether the typed character, compared
case-insensitively, is the first character of one or more current labels. -/
def isLabelStart (ms : List FlashMatch) (c : Char) : Bool :=
  ms.any (fun m => m.letter.data.head? = some c.toLower)

/-- Modelled from the spec: §4.4, extension of the query by one printable
character followed by a recompute, and the auto-jump: "immediately after a
recompute that was triggered by query growth and
`|query| >= minCharsBeforeLabels`, if exactly one match remains, commit the
jump to it and transition to `Inactive`" (the threshold gate of `recompute`
forces zero matches below the minimum, so a singleton recompute result is
only possible at or above it). -/
def extendQuery (env : FlashEnv) (s : SearchState) (c : Char) : SearchState :=
  match recompute env (s.query ++ [c]) with
  | [m] => jumpTo s m.index
  | _ =>
    { s with
      query := s.query ++ [c]
      currentMatches := recompute env (s.query ++ [c])
      pending := none }

/-- Modelled from the spec: §4.4, handling of one printable character while
`Active`: complete a pending two-character label selection if one is open;
otherwise, at or above the minimum query length, a character starting one or
more current labels is a label selection (unique single-character label:
jump; shared first character: narrow the match set and await the second
character); any other character extends the search string. -/
def handleChar (env : FlashEnv) (s : SearchState) (c : Char) : SearchState :=
  match s.pending with
  | some p =>
    match s.currentMatches.filter (fun m => m.letter = pairStr p c.toLower) with
    | [m] => jumpTo s m.index
    | _ => s
  | none =>
    if env.minChars ≤ s.query.length ∧ isLabelStart s.currentMatches c = true then
      match s.currentMatches.filter (fun m => m.letter = singleStr c.toLower) with
      | [m] => jumpTo s m.index
      | _ =>
        { s with
          currentMatches := s.currentMatches.filter (fun m => m.letter.data.head? = some c.toLower),
          pending := some c.toLower }
    else extendQuery env s c

/-- Modelled from the spec: §4.4, the keystroke dispatch of an `Active`
session (an inactive session is terminal and ignores input): cancel on the
cancel key, delete-last plus recompute on backspace (no auto-jump, since the
recompute was not triggered by query growth), no-op on modifier-only keys,
and `handleChar` on printable characters. -/
def handleKey (env : FlashEnv) (s : SearchState) (k : FlashKey) : SearchState :=
  if s.active = true then
    match k with
    | .escape => cancelState s
    | .backspace =>
      { s with
        query := s.query.dropLast
        currentMatches := recompute env s.query.dropLast
        pending := none }
    | .shift => s
    | .control => s
    | .alt => s
    | .meta => s
    | .capsLock => s
    | .tab => s
    | .enter => s
    | .char c => handleChar env s c
  else s

/-- Modelled from the spec: §4.4, "any pointer/click event outside the active
search area, while `Active`, cancels the session identically to the cancel
key". -/
def handleEvent (env : FlashEnv) (s : SearchState) (e : FlashEvent) : SearchState :=
  match e with
  | .key k => handleKey env s k
  | .clickOutside => if s.active = true then cancelState s else s

lemma recompute_threshold {env : FlashEnv} {q : List Char}
    (h : recompute env q ≠ []) : env.minChars ≤ q.length := by
  unfold recompute at h
  by_contra hlt
  rw [if_neg hlt] at h
  exact h rfl

lemma recompute_below_threshold {env : FlashEnv} {q : List Char}
    (h : q.length < env.minChars) : recompute env q = [] := by
  unfold recompute
  rw [if_neg (by omega)]

/-- Claim C4: while `Active` with no pending label selection, a printable
character that extends the query triggers a recompute; if the query has
reached `minCharsBeforeLabels` and exactly one match remains, the jump is
committed (cursor moved to that match) and the session becomes `Inactive`
without a label keystroke, whereas below the minimum query length, with zero
remaining matches, or with two or more remaining matches, the session stays
`Active` and no cursor movement is issued. -/
theorem auto_jump_on_unique_match (env : FlashEnv) (s : SearchState) (c : Char)
    (hact : s.active = true) (hpend : s.pending = none)
    (hext : ¬ (env.minChars ≤ s.query.length ∧ isLabelStart s.currentMatches c = true)) :
    (∀ m : FlashMatch, recompute env (s.query ++ [c]) = [m] →
        env.minChars ≤ (s.query ++ [c]).length ∧
        handleKey env s (.char c) = jumpTo s m.index ∧
        (handleKey env s (.char c)).active = false ∧
        (handleKey env s (.char c)).cursor = some m.index) ∧
    ((s.query ++ [c]).length < env.minChars →
        (handleKey env s (.char c)).active = true ∧
        (handleKey env s (.char c)).cursor = s.cursor ∧
        (handleKey env s (.char c)).currentMatches = []) ∧
    (recompute env (s.query ++ [c]) = [] →
        (handleKey env s (.char c)).active = true ∧
        (handleKey env s (.char c)).cursor = s.cursor) ∧
    (2 ≤ (recompute env (s.query ++ [c])).length →
        (handleKey env s (.char c)).active = true ∧
        (handleKey env s (.char c)).cursor = s.cursor ∧
        (handleKey env s (.char c)).currentMatches = recompute env (s.query ++ [c])) := by
  have hred : handleKey env s (.char c) = extendQuery env s c := by
    show (if s.active = true then handleChar env s c else s) = extendQuery env s c
    rw [if_pos hact]
    unfold handleChar
    rw [hpend]
    rw [if_neg hext]
  refine ⟨?_, ?_, ?_, ?_⟩
  · intro m hm
    have hne : recompute env (s.query ++ [c]) ≠ [] := by
      rw [hm]
      simp
    refine ⟨recompute_threshold hne, ?_⟩
    have : handleKey env s (.char c) = jumpTo s m.index := by
      rw [hred]
      unfold extendQuery
      rw [hm]
    exact ⟨this, by rw [this]; rfl, by rw [this]; rfl⟩
  · intro hlt
    have hrec : recompute env (s.query ++ [c]) = [] := recompute_below_threshold hlt
    rw [hred]
    unfold extendQuery
    rw [hrec]
    exact ⟨hact, rfl, rfl⟩
  · intro hrec
    rw [hred]
    unfold extendQuery
    rw [hrec]
    exact ⟨hact, rfl⟩
  · intro h2
    rw [hred]
    unfold extendQuery
    cases hrec : recompute env (s.query ++ [c]) with
    | nil => rw [hrec] at h2; simp at h2
    | cons a tl =>
      cases tl with
      | nil => rw [hrec] at h2; simp at h2
      | cons b tl2 =>
        exact ⟨hact, rfl, rfl⟩

/-- Claim C9: at any point of an `Active` session, the Escape key and a
click outside the search area both cancel the session: the query becomes
empty, the match set becomes empty, the session becomes `Inactive`, and no
cursor movement is issued (the cursor command stays exactly what it was). -/
theorem cancel_clears_session (env : FlashEnv) (s : SearchState) (hact : s.active = true) :
    ((handleEvent env s (.key .escape)).query = [] ∧
     (handleEvent env s (.key .escape)).currentMatches = [] ∧
     (handleEvent env s (.key .escape)).active = false ∧
     (handleEvent env s (.key .escape)).cursor = s.cursor) ∧
    ((handleEvent env s .clickOutside).query = [] ∧
     (handleEvent env s .clickOutside).currentMatches = [] ∧
     (handleEvent env s .clickOutside).active = false ∧
     (handleEvent env s .clickOutside).cursor = s.cursor) := by
  have h1 : handleEvent env s (.key .escape) = cancelState s := by
    show (if s.active = true then cancelState s else s) = cancelState s
    rw [if_pos hact]
  have h2 : handleEvent env s .clickOutside = cancelState s := by
    show (if s.active = true then cancelState s else s) = cancelState s
    rw [if_pos hact]
  rw [h1, h2]
  exact ⟨⟨rfl, rfl, rfl, rfl⟩, ⟨rfl, rfl, rfl, rfl⟩⟩

/-- Claim C10: while `Active`, a modifier-only keystroke (Shift, Control,
Alt or Meta) is a no-op - the whole session state, in particular the search
string, the match set and the active flag, is unchanged. -/
theorem modifier_keys_are_noops (env : FlashEnv) (s : SearchState)
    (hact : s.active = true) :
    handleKey env s .shift = s ∧ handleKey env s .control = s ∧
    handleKey env s .alt = s ∧ handleKey env s .meta = s := by
  refine ⟨?_, ?_, ?_, ?_⟩ <;>
  · show (if s.active = true then s else s) = s
    rw [if_pos hact]

/-! ## Concrete witnesses -/

/-- The configuration of the repository's unit tests: the default label
alphabet, case-insensitive matching, a two-character minimum, and the
document of the auto-jump example of the spec (§8). -/
def exampleEnv : FlashEnv :=
  { alphabet := "sadfjklewcmpgh".data
    caseSensitive := false
    minChars := 2
    text := "apple banana cherry".data
    ranges := [(0, 19)] }

/-- Witness for claim C3, at the two-letter alphabet `"ab"` with no exclusions
and `count = 4 = capacity`: four distinct labels over the alphabet. -/
theorem generateHintLabels_capacity_witness :
    (generateHintLabels "ab".data 4 []).length = 4 ∧
    (generateHintLabels "ab".data 4 []).Nodup ∧
    ∀ s ∈ generateHintLabels "ab".data 4 [], ∀ ch ∈ s.data,
      ch ∈ normalizeAlphabet "ab".data :=
  generateHintLabels_capacity "ab".data [] 4 (by decide) (by decide)

/-- Witness for claim C8, at alphabet `"abc"` and `count = 7`: the label `ab`
is emitted, so its reserved prefix `a` does not occur as a standalone
label. -/
theorem generateHintLabels_structure_witness :
    singleStr 'a' ∉ generateHintLabels "abc".data 7 [] :=
  (generateHintLabels_structure "abc".data [] 7).2.2 'a' 'b' (by decide)

/-- Witness for claim C6, on the multiple-visible-ranges document of the unit
tests: the returned match starting at offset 0 lies inside the range
`[0, 5)`. -/
theorem findMatches_within_visible_ranges_witness :
    ∃ r ∈ [((0 : Nat), (5 : Nat)), ((26 : Nat), (31 : Nat))],
      r.1 ≤ (0 : Nat) ∧ (0 : Nat) < r.2 :=
  (findMatches_within_visible_ranges "sadfjklewcmpgh".data false
      "test1 hidden test2 hidden test3".data [(0, 5), (26, 31)] "test".data).1
    ⟨0, 4, "test".data, "s", some '1'⟩ (by decide)

/-- Witness for claim C7, on the metacharacter document of the unit tests:
the empty query returns no matches, and the returned match of the query
`"file.txt"` (offset 0) carries the query literally, dot included. -/
theorem findMatches_empty_and_literal_witness :
    findMatches "sadfjklewcmpgh".data false "file.txt file-txt filetxt".data
        [(0, 25)] [] = [] ∧
    ((foldCase false "file.txt file-txt filetxt".data).drop 0).take
        "file.txt".data.length = foldCase false "file.txt".data := by
  constructor
  · exact (findMatches_empty_and_literal "sadfjklewcmpgh".data false
      "file.txt file-txt filetxt".data [(0, 25)]).1
  · exact (findMatches_empty_and_literal "sadfjklewcmpgh".data false
      "file.txt file-txt filetxt".data [(0, 25)]).2 "file.txt".data
      ⟨0, 8, "file.txt".data, "s", some ' '⟩ (by decide)

/-- Witness for claim C5, on the `"flash flash flash"` / `"fla"` example of
the spec (§8): the character `'a'` of the first returned label is not among
the collected next characters (which are all `'s'`). -/
theorem labels_avoid_next_chars_witness :
    'a' ∉ nextCharsOf "flash flash flash".data 3
      (locatedPositions false "flash flash flash".data [(0, 17)] "fla".data) :=
  (labels_avoid_next_chars "sadfjklewcmpgh".data false "flash flash flash".data
      [(0, 17)] "fla".data).1 (by decide)
    ⟨0, 3, "fla".data, "a", some 's'⟩ (by decide) 'a' (by decide)

/-- Witness for claim C1 (amended theorem), at the label-exhaustion input of
the counterexample: the returned indices are the labelled prefix of the
located positions and all returned labels are non-empty. -/
theorem findMatches_truncates_to_labels_witness :
    (findMatches "a".data false "a a a a a a a a a a".data [(0, 19)] "a".data).map
        FlashMatch.index =
      (locatedPositions false "a a a a a a a a a a".data [(0, 19)] "a".data).take
        (generateHintLabels "a".data
          (locatedPositions false "a a a a a a a a a a".data [(0, 19)] "a".data).length
          (nextCharsOf "a a a a a a a a a a".data 1
            (locatedPositions false "a a a a a a a a a a".data [(0, 19)] "a".data))).length ∧
    ∀ m ∈ findMatches "a".data false "a a a a a a a a a a".data [(0, 19)] "a".data,
      m.letter ≠ "" :=
  findMatches_truncates_to_labels "a".data false "a a a a a a a a a a".data [(0, 19)]
    "a".data

/-- Witness for claim C2 (amended theorem), at the counterexample input: the
match of `"aab"` at offset 1 is a literal occurrence of `"aa"` inside the
visible range, even though `findMatches` does not return offset 1 for
`"aa"`. -/
theorem narrowing_occurrence_subset_witness :
    ((foldCase false "aaab".data).drop 1).take "aa".data.length =
      foldCase false "aa".data :=
  (narrowing_occurrence_subset "sadfjklewcmpgh".data false "aaab".data [(0, 4)]
      "aa".data 'b' (by decide) ⟨1, 3, "aab".data, "s", none⟩ (by decide)).1

/-- Witness for claim C4: on `"apple banana cherry"` with minimum 2, typing
`c` then `h` leaves exactly one match ("cherry", offset 13), so the session
auto-jumps there and deactivates. -/
theorem auto_jump_on_unique_match_witness :
    (handleKey exampleEnv (handleKey exampleEnv activatedState (.char 'c'))
        (.char 'h')).active = false ∧
    (handleKey exampleEnv (handleKey exampleEnv activatedState (.char 'c'))
        (.char 'h')).cursor = some 13 := by
  have h := (auto_jump_on_unique_match exampleEnv
      (handleKey exampleEnv activatedState (.char 'c')) 'h' (by decide) (by decide)
      (by decide)).1 ⟨13, 2, "ch".data, "s", some 'e'⟩ (by decide)
  exact ⟨h.2.2.1, h.2.2.2⟩

/-- Witness for claim C9: Escape and an outside click on a fresh `Active`
session clear the query and matches, deactivate, and issue no cursor
command. -/
theorem cancel_clears_session_witness :
    ((handleEvent exampleEnv activatedState (.key .escape)).query = [] ∧
     (handleEvent exampleEnv activatedState (.key .escape)).currentMatches = [] ∧
     (handleEvent exampleEnv activatedState (.key .escape)).active = false ∧
     (handleEvent exampleEnv activatedState (.key .escape)).cursor =
       activatedState.cursor) ∧
    ((handleEvent exampleEnv activatedState .clickOutside).query = [] ∧
     (handleEvent exampleEnv activatedState .clickOutside).currentMatches = [] ∧
     (handleEvent exampleEnv activatedState .clickOutside).active = false ∧
     (handleEvent exampleEnv activatedState .clickOutside).cursor =
       activatedState.cursor) :=
  cancel_clears_session exampleEnv activatedState rfl

/-- Witness for claim C10: the four modifier-only keys leave a fresh `Active`
session untouched. -/
theorem modifier_keys_are_noops_witness :
    handleKey exampleEnv activatedState .shift = activatedState ∧
    handleKey exampleEnv activatedState .control = activatedState ∧
    handleKey exampleEnv activatedState .alt = activatedState ∧
    handleKey exampleEnv activatedState .meta = activatedState :=
  modifier_keys_are_noops exampleEnv activatedState rfl

end ObsidianFlash
